import Mathlib

/-
Verification development for the letsearch indexing-and-search core.

The Rust source is embedded shallowly:
* machine integers (u64, u32, i64, usize) become ℕ / ℤ;
* f32 scores become ℚ (exact arithmetic stands in for floats);
* fallible / panicking paths become Option or explicit outcome types
  (a Rust panic is modelled as a distinguished abort outcome, kept apart
  from an error value returned to the caller);
* DuckDB statements issued by the source are modelled by their documented
  relational semantics over an explicit list of rows;
* the external usearch ANN library is modelled from the spec where noted.
-/

namespace Letsearch

/-- Output precision declared by an embedding model (model_utils::ModelOutputDType). -/
inductive ModelOutputDType where
  | F16
  | F32
  | Int8
deriving DecidableEq, Repr

/-- Scalar quantization kind of a usearch index (usearch::ScalarKind, the variants used). -/
inductive ScalarKind where
  | F32
  | F16
  | I8
deriving DecidableEq, Repr

/-- Distance metric of a usearch index (usearch::MetricKind, the variants relevant here). -/
inductive MetricKind where
  | IP
  | L2sq
  | Cos
deriving DecidableEq, Repr

/-- usearch::IndexOptions as filled in by Collection::embed_column. -/
structure IndexOptions where
  dimensions : ℕ
  metric : MetricKind
  quantization : ScalarKind
  connectivity : ℕ
  expansion_add : ℕ
  expansion_search : ℕ
  multi : Bool
deriving DecidableEq, Repr

/-- One row of the row store, restricted to the column being embedded / searched:
its (nullable) text value and its synthetic `_key` (u64, modelled as ℕ). -/
structure StoredRow where
  text : Option String
  key : ℕ
deriving DecidableEq, Repr

/-- The DuckDB row store of one collection: whether the table named after the
collection exists, and its rows in table (insertion) order. -/
structure RowStore where
  tableExists : Bool
  rows : List StoredRow
deriving DecidableEq, Repr

/-- An input file for import: whether the source file already carries a `_key`
column, and its records in file order.  When `hasKeyColumn` is false the `key`
field of each row is meaningless (the table created by `CREATE TABLE … AS
SELECT * FROM read_json_auto(…)` has no `_key` column yet). -/
structure InputFile where
  hasKeyColumn : Bool
  rows : List StoredRow
deriving DecidableEq, Repr

/-- NEXTVAL('keys_seq') applied to every row in table order: the named sequence
starts at `start` and increments by one per row. -/
def seqAssignKeys (start : ℕ) : List StoredRow → List StoredRow
  | [] => []
  | r :: rs => ⟨r.text, start⟩ :: seqAssignKeys (start + 1) rs

/-- Collection::add_keys_to_db: consult information_schema for a `_key` column;
only when absent, `CREATE SEQUENCE keys_seq; ALTER TABLE … ADD COLUMN _key
UBIGINT DEFAULT NEXTVAL('keys_seq')`, which assigns 1, 2, … in table order. -/
def add_keys_to_db (hasKeyColumn : Bool) (rows : List StoredRow) : List StoredRow :=
  if hasKeyColumn then rows else seqAssignKeys 1 rows

/-- Errors surfaced by the import transaction. `CREATE TABLE` on a name that is
already taken fails, the `?` operator propagates the error, and dropping the
uncommitted transaction rolls everything back. -/
inductive ImportError where
  | tableAlreadyExists
deriving DecidableEq, Repr

/-- Collection::import_jsonl: inside one transaction, `CREATE TABLE <name> AS
SELECT * FROM read_json_auto(…)` followed by add_keys_to_db, then commit.  The
returned pair is (error of the failed transaction if any, row store visible
after the transaction ends). -/
def import_jsonl (st : RowStore) (f : InputFile) : Option ImportError × RowStore :=
  if st.tableExists then (some .tableAlreadyExists, st)
  else (none, ⟨true, add_keys_to_db f.hasKeyColumn f.rows⟩)

theorem seqAssignKeys_map_key (start : ℕ) (l : List StoredRow) :
    (seqAssignKeys start l).map (fun r => r.key) = List.range' start l.length := by
  induction l generalizing start with
  | nil => rfl
  | cons r rs ih =>
    simp [seqAssignKeys, List.range'_succ, ih]

/-- C3: after a successful first import of a file with N rows (no `_key` column
of its own) into a fresh collection, the transaction succeeds and the `_key`
values of the table are exactly 1, …, N in table order: dense from 1, unique,
and each fits in a u64 whenever N does. -/
theorem import_fresh_keys_dense (st : RowStore) (f : InputFile)
    (hfresh : st.tableExists = false) (hnokey : f.hasKeyColumn = false)
    (hN : f.rows.length < 2 ^ 64) :
    (import_jsonl st f).1 = none ∧
    (import_jsonl st f).2.tableExists = true ∧
    (import_jsonl st f).2.rows.map (fun r => r.key) = List.range' 1 f.rows.length ∧
    ((import_jsonl st f).2.rows.map (fun r => r.key)).Nodup ∧
    (∀ k ∈ (import_jsonl st f).2.rows.map (fun r => r.key),
      1 ≤ k ∧ k ≤ f.rows.length ∧ k < 2 ^ 64) ∧
    (∀ k, 1 ≤ k → k ≤ f.rows.length →
      k ∈ (import_jsonl st f).2.rows.map (fun r => r.key)) := by
  have hkeys : (import_jsonl st f).2.rows.map (fun r => r.key)
      = List.range' 1 f.rows.length := by
    simp [import_jsonl, hfresh, add_keys_to_db, hnokey, seqAssignKeys_map_key]
  have hpw : List.Pairwise (· < ·) (List.range' 1 f.rows.length) := by
    have := List.pairwise_lt_range' 1 f.rows.length 1 (by norm_num)
    simpa using this
  refine ⟨by simp [import_jsonl, hfresh], by simp [import_jsonl, hfresh], hkeys, ?_, ?_, ?_⟩
  · rw [hkeys]
    exact hpw.imp Nat.ne_of_lt
  · intro k hk
    rw [hkeys] at hk
    have := List.mem_range'_1.mp hk
    exact ⟨this.1, by omega, by omega⟩
  · intro k hk1 hk2
    rw [hkeys]
    exact List.mem_range'_1.mpr ⟨hk1, by omega⟩

/-- Witness for import_fresh_keys_dense at a concrete three-row file. -/
theorem import_fresh_keys_dense_witness :
    (import_jsonl ⟨false, []⟩ ⟨false, [⟨some "a", 0⟩, ⟨some "b", 0⟩, ⟨some "c", 0⟩]⟩).1
      = none ∧
    (import_jsonl ⟨false, []⟩ ⟨false, [⟨some "a", 0⟩, ⟨some "b", 0⟩, ⟨some "c", 0⟩]⟩).2.rows.map
        (fun r => r.key) = List.range' 1 3 := by
  have h := import_fresh_keys_dense ⟨false, []⟩
    ⟨false, [⟨some "a", 0⟩, ⟨some "b", 0⟩, ⟨some "c", 0⟩]⟩ rfl rfl (by norm_num)
  exact ⟨h.1, h.2.2.1⟩

/-- C3 counterexample: a first import of a file that already carries a `_key`
column keeps the file's key values, so the keys are not {1, …, N}; the code
only adds the sequence-backed `_key` column when none exists. -/
theorem import_keyColumn_counterexample :
    (import_jsonl ⟨false, []⟩ ⟨true, [⟨some "a", 5⟩]⟩).2.rows.map (fun r => r.key)
      ≠ List.range' 1 1 := by
  decide

/-- C9: an import into a collection whose table already exists fails (the
CREATE TABLE statement errors and the transaction is rolled back), and the
row store visible afterwards is exactly the one from before the call. -/
theorem import_into_populated_fails (st : RowStore) (f : InputFile)
    (hpop : st.tableExists = true) :
    (import_jsonl st f).1 = some .tableAlreadyExists ∧ (import_jsonl st f).2 = st := by
  simp [import_jsonl, hpop]

/-- Witness for import_into_populated_fails on a concrete populated store. -/
theorem import_into_populated_fails_witness :
    (import_jsonl ⟨true, [⟨some "a", 1⟩]⟩ ⟨false, [⟨some "b", 0⟩]⟩).1
      = some .tableAlreadyExists ∧
    (import_jsonl ⟨true, [⟨some "a", 1⟩]⟩ ⟨false, [⟨some "b", 0⟩]⟩).2
      = ⟨true, [⟨some "a", 1⟩]⟩ :=
  import_into_populated_fails ⟨true, [⟨some "a", 1⟩]⟩ ⟨false, [⟨some "b", 0⟩]⟩ rfl

/-- The iterator chain `col_array.iter().map(|s| s.unwrap().to_string()).collect()`:
unwrap every text value, aborting (None) at the first NULL. -/
def unwrapTexts : List StoredRow → Option (List String)
  | [] => some []
  | r :: rs =>
    match r.text with
    | none => none
    | some t => (unwrapTexts rs).map (fun ts => t :: ts)

/-- Collection::get_column_and_keys: assert limit ≥ 1, then
`SELECT <column>, _key FROM <table> LIMIT <limit> OFFSET <offset>`; texts are
unwrapped (panic on NULL, modelled as None), keys are read with unwrap_or(0)
(never NULL here since every stored row carries a key). -/
def get_column_and_keys (st : RowStore) (limit offset : ℕ) :
    Option (List String × List ℕ) :=
  if limit < 1 then none
  else
    match unwrapTexts ((st.rows.drop offset).take limit) with
    | none => none
    | some texts => some (texts, ((st.rows.drop offset).take limit).map (fun r => r.key))

/-- Collection::get_single_column: assert limit ≥ 1, then either
`SELECT <column> FROM <table> LIMIT <limit> OFFSET <offset>` (no keys given) or
`SELECT <column> FROM <table> WHERE _key IN (<keys>) LIMIT <limit> OFFSET
<offset>`; the WHERE filter keeps table order, it does not reorder rows to
follow the key list.  Texts are unwrapped (panic on NULL, modelled as None). -/
def get_single_column (st : RowStore) (limit offset : ℕ) (keys : List ℕ) :
    Option (List String) :=
  if limit < 1 then none
  else
    let selected := if keys.isEmpty then st.rows
      else st.rows.filter (fun r => keys.contains r.key)
    unwrapTexts ((selected.drop offset).take limit)

/-- One (key, score) match returned by VectorIndex::search. -/
structure SimilarityResult where
  key : ℕ
  score : ℚ
deriving DecidableEq, Repr

/-- One hydrated search result returned by Collection::search. -/
structure SearchResult where
  content : String
  key : ℕ
  score : ℚ
deriving DecidableEq, Repr

/-- The hydration tail of Collection::search, taking the similarity results the
vector index produced for the query: collect the matched keys, fetch contents
with one get_single_column call (limit = number of matches, offset = 0), and
zip the score-ordered similarity results positionally with the returned
contents. -/
def collectionSearch (st : RowStore) (simResults : List SimilarityResult) :
    Option (List SearchResult) :=
  match get_single_column st (simResults.map (fun r => r.key)).length 0
      (simResults.map (fun r => r.key)) with
  | none => none
  | some contents =>
    some ((simResults.zip contents).map (fun p => ⟨p.2, p.1.key, p.1.score⟩))

/-- C1: at a concrete populated store, Collection::search pairs the top-scoring
key 2 with the text of the row whose key is 1.  The `IN (…)` hydration query
returns contents in table order while the similarity results are in score
order, and the positional zip misassociates them: the result for key 2 carries
content "a" although the key-2 row stores "b". -/
theorem search_hydration_misassociates :
    collectionSearch ⟨true, [⟨some "a", 1⟩, ⟨some "b", 2⟩]⟩ [⟨2, 1⟩, ⟨1, 0⟩]
      = some [⟨"a", 2, 1⟩, ⟨"b", 1, 0⟩] ∧
    ([⟨some "a", 1⟩, ⟨some "b", 2⟩] : List StoredRow).filter (fun r => r.key == 2)
      = [⟨some "b", 2⟩] := by
  constructor <;> rfl

/-- C10: when the vector index returns zero matches, Collection::search calls
get_single_column with limit 0, whose `assert!(limit >= 1)` fails: the
operation aborts (None) instead of returning the empty result list. -/
theorem search_zero_matches_aborts (st : RowStore) :
    collectionSearch st [] = none := by
  simp [collectionSearch, get_single_column]

theorem unwrapTexts_of_all_some (l : List StoredRow)
    (h : ∀ r ∈ l, r.text.isSome) :
    unwrapTexts l = some (l.map (fun r => r.text.getD "")) := by
  induction l with
  | nil => rfl
  | cons r rs ih =>
    have hr : r.text.isSome := h r (by simp)
    obtain ⟨t, ht⟩ := Option.isSome_iff_exists.mp hr
    have hrs := ih (fun x hx => h x (by simp [hx]))
    simp [unwrapTexts, ht, hrs]

theorem unwrapTexts_of_mem_none (l : List StoredRow) (r : StoredRow)
    (hmem : r ∈ l) (hnone : r.text = none) :
    unwrapTexts l = none := by
  induction l with
  | nil => cases hmem
  | cons x xs ih =>
    rcases List.mem_cons.mp hmem with hx | hx
    · subst hx
      simp [unwrapTexts, hnone]
    · cases hx' : x.text with
      | none => simp [unwrapTexts, hx']
      | some t => simp [unwrapTexts, hx', ih hx]

/-- C5 (amended): the batch read returns the min(batch_size, N − offset) rows
at the given offset; when every read text is non-NULL the texts come back
aligned one-to-one with their own keys, but a single NULL text makes the whole
call abort (the unwrap panics) — NULL is neither replaced by the empty string
nor skipped. -/
theorem get_column_and_keys_spec (st : RowStore) (limit offset : ℕ)
    (hlim : 1 ≤ limit) :
    ((∀ r ∈ (st.rows.drop offset).take limit, r.text.isSome) →
      get_column_and_keys st limit offset
        = some (((st.rows.drop offset).take limit).map (fun r => r.text.getD ""),
                ((st.rows.drop offset).take limit).map (fun r => r.key)) ∧
      ((st.rows.drop offset).take limit).length
        = min limit (st.rows.length - offset)) ∧
    (∀ r ∈ (st.rows.drop offset).take limit, r.text = none →
      get_column_and_keys st limit offset = none) := by
  constructor
  · intro hall
    refine ⟨?_, by simp⟩
    have := unwrapTexts_of_all_some _ hall
    simp [get_column_and_keys, Nat.not_lt.mpr hlim, this]
  · intro r hmem hnone
    have := unwrapTexts_of_mem_none _ r hmem hnone
    simp [get_column_and_keys, Nat.not_lt.mpr hlim, this]

/-- Witness for get_column_and_keys_spec: a two-row table read with
batch_size 1 at offset 0 yields the first text aligned with key 1. -/
theorem get_column_and_keys_spec_witness :
    get_column_and_keys ⟨true, [⟨some "x", 1⟩, ⟨none, 2⟩]⟩ 1 0
      = some (["x"], [1]) :=
  ((get_column_and_keys_spec ⟨true, [⟨some "x", 1⟩, ⟨none, 2⟩]⟩ 1 0
    (by norm_num)).1 (by decide)).1

/-- C5 counterexample: a row whose text is NULL makes get_column_and_keys
abort, where the claim promises the empty string (or a skip) instead. -/
theorem get_column_and_keys_null_counterexample :
    get_column_and_keys ⟨true, [⟨none, 1⟩]⟩ 1 0 = none := by
  rfl

/-- Modelled from the spec: the external usearch library's search over a
cosine index.  The index holds (key, vector) entries; `search(q, k)` scores
every entry with the index's distance function, returns the matches sorted by
ascending distance, and keeps at most k of them.  The distance function is a
parameter; for the Cos metric its range is [0, 2] (spec: for cosine the score
1 − distance lies in [−1, 1]). -/
def usearchSearch (entries : List (ℕ × List ℚ)) (dist : List ℚ → List ℚ → ℚ)
    (q : List ℚ) (k : ℕ) : List (ℕ × ℚ) :=
  (List.insertionSort (fun a b => a.2 ≤ b.2)
    (entries.map (fun e => (e.1, dist q e.2)))).take k

/-- VectorIndex::search: run the underlying index search and map every
(key, distance) match to a SimilarityResult with score = 1 − distance. -/
def vectorIndexSearch (entries : List (ℕ × List ℚ)) (dist : List ℚ → List ℚ → ℚ)
    (q : List ℚ) (k : ℕ) : List SimilarityResult :=
  (usearchSearch entries dist q k).map (fun m => ⟨m.1, 1 - m.2⟩)

/-- C2: for every index content and every k, VectorIndex::search returns at
most k results; each result is one of the index's entries with score equal to
1 minus that entry's distance to the query; every score lies in [−1, 1]
(using that a cosine distance lies in [0, 2]); results are sorted by
descending score; and an empty index yields the empty sequence. -/
theorem vectorIndexSearch_spec (entries : List (ℕ × List ℚ))
    (dist : List ℚ → List ℚ → ℚ) (q : List ℚ) (k : ℕ)
    (hdist : ∀ a b, 0 ≤ dist a b ∧ dist a b ≤ 2) :
    (vectorIndexSearch entries dist q k).length ≤ k ∧
    (∀ r ∈ vectorIndexSearch entries dist q k,
      ∃ e ∈ entries, r.key = e.1 ∧ r.score = 1 - dist q e.2) ∧
    (∀ r ∈ vectorIndexSearch entries dist q k, -1 ≤ r.score ∧ r.score ≤ 1) ∧
    List.Pairwise (fun a b => b.score ≤ a.score) (vectorIndexSearch entries dist q k) ∧
    (entries = [] → vectorIndexSearch entries dist q k = []) := by
  have hmem : ∀ r ∈ vectorIndexSearch entries dist q k,
      ∃ e ∈ entries, r.key = e.1 ∧ r.score = 1 - dist q e.2 := by
    intro r hr
    obtain ⟨m, hm, rfl⟩ := List.mem_map.mp hr
    have hm1 : m ∈ List.insertionSort (fun a b => a.2 ≤ b.2)
        (entries.map (fun e => (e.1, dist q e.2))) := List.mem_of_mem_take hm
    have hm2 : m ∈ entries.map (fun e => (e.1, dist q e.2)) :=
      (List.perm_insertionSort _ _).mem_iff.mp hm1
    obtain ⟨e, he, rfl⟩ := List.mem_map.mp hm2
    exact ⟨e, he, rfl, rfl⟩
  refine ⟨?_, hmem, ?_, ?_, ?_⟩
  · simp [vectorIndexSearch, usearchSearch]
  · intro r hr
    obtain ⟨e, _, _, hs⟩ := hmem r hr
    have := hdist q e.2
    constructor <;> [skip; skip] <;> rw [hs] <;> linarith [this.1, this.2]
  · haveI : IsTotal (ℕ × ℚ) (fun a b => a.2 ≤ b.2) := ⟨fun a b => le_total a.2 b.2⟩
    haveI : IsTrans (ℕ × ℚ) (fun a b => a.2 ≤ b.2) := ⟨fun _ _ _ h1 h2 => le_trans h1 h2⟩
    have hsorted : List.Pairwise (fun a b : ℕ × ℚ => a.2 ≤ b.2)
        (List.insertionSort (fun a b => a.2 ≤ b.2)
          (entries.map (fun e => (e.1, dist q e.2)))) :=
      List.sorted_insertionSort _ _
    have htake := hsorted.sublist (List.take_sublist k _)
    rw [vectorIndexSearch, List.pairwise_map]
    exact htake.imp (fun hab => by dsimp only; linarith [hab])
  · intro he
    subst he
    simp [vectorIndexSearch, usearchSearch]

/-- Constant distance used to instantiate vectorIndexSearch_spec. -/
def constDistOne : List ℚ → List ℚ → ℚ := fun _ _ => 1

/-- Witness for vectorIndexSearch_spec at a concrete two-entry index. -/
theorem vectorIndexSearch_spec_witness :
    (∀ a b, 0 ≤ constDistOne a b ∧ constDistOne a b ≤ 2) ∧
    (vectorIndexSearch [(1, [1]), (2, [0])] constDistOne [1] 2).length ≤ 2 ∧
    (∀ r ∈ vectorIndexSearch [(1, [1]), (2, [0])] constDistOne [1] 2,
      -1 ≤ r.score ∧ r.score ≤ 1) := by
  have h : ∀ a b, 0 ≤ constDistOne a b ∧ constDistOne a b ≤ 2 := by
    intro a b
    constructor <;> simp [constDistOne]
  have hs := vectorIndexSearch_spec [(1, [1]), (2, [0])] constDistOne [1] 2 h
  exact ⟨h, hs.1, hs.2.2.1⟩

/-- A loaded embedding model as the ModelManager sees it: declared output
precision and dimension, plus the two typed inference entry points of the
backend. -/
structure LoadedModel where
  output_dtype : ModelOutputDType
  output_dim : ℤ
  embedF16 : List String → List (List ℚ)
  embedF32 : List String → List (List ℚ)

/-- model_utils::Embeddings, the tagged inference result. -/
inductive Embeddings where
  | F16 (emb : List (List ℚ))
  | F32 (emb : List (List ℚ))
deriving DecidableEq, Repr

/-- How one ModelManager::predict call ends: a value, an error returned to the
caller, or an abort of the running thread (a Rust panic such as the
unimplemented! macro). -/
inductive PredictOutcome where
  | ok (e : Embeddings)
  | error (msg : String)
  | aborted (msg : String)
deriving DecidableEq, Repr

/-- True when the outcome is an error value returned to the caller. -/
def PredictOutcome.isReturnedError : PredictOutcome → Bool
  | .error _ => true
  | _ => false

/-- True when the outcome is a panic that aborts instead of returning. -/
def PredictOutcome.isAborted : PredictOutcome → Bool
  | .aborted _ => true
  | _ => false

/-- ModelManager::predict: look up the model's declared output_dtype
(error "Model not loaded" when the id is unknown), then dispatch: F16 to
predict_f16, F32 to predict_f32, Int8 to the unimplemented! macro — a panic,
not a returned error. -/
def predict (models : List (ℕ × LoadedModel)) (id : ℕ) (texts : List String) :
    PredictOutcome :=
  match models.lookup id with
  | none => .error "Model not loaded"
  | some m =>
    match m.output_dtype with
    | .F16 => .ok (.F16 (m.embedF16 texts))
    | .F32 => .ok (.F32 (m.embedF32 texts))
    | .Int8 => .aborted "int8 dynamic quantization not yet implemented"

/-- C6 (amended): for a loaded model, predict dispatches F16 to the f16
entry point and F32 to the f32 entry point; for Int8 it aborts through the
unimplemented! panic and does not return an error value to the caller. -/
theorem predict_dispatch (models : List (ℕ × LoadedModel)) (id : ℕ)
    (texts : List String) (m : LoadedModel) (hm : models.lookup id = some m) :
    (m.output_dtype = .F16 → predict models id texts = .ok (.F16 (m.embedF16 texts))) ∧
    (m.output_dtype = .F32 → predict models id texts = .ok (.F32 (m.embedF32 texts))) ∧
    (m.output_dtype = .Int8 →
      (predict models id texts).isAborted = true ∧
      (predict models id texts).isReturnedError = false) := by
  refine ⟨?_, ?_, ?_⟩ <;> intro h <;>
    simp [predict, hm, h, PredictOutcome.isAborted, PredictOutcome.isReturnedError]

/-- A concrete F32 model used as witness input. -/
def f32Model : LoadedModel :=
  ⟨.F32, 2, fun _ => [], fun _ => [[1, 0]]⟩

/-- A concrete Int8 model exhibiting the counterexample. -/
def int8Model : LoadedModel :=
  ⟨.Int8, 384, fun _ => [], fun _ => []⟩

/-- Witness for predict_dispatch: an F32 model dispatches to its f32 entry
point. -/
theorem predict_dispatch_witness :
    predict [(1, f32Model)] 1 ["hello"] = .ok (.F32 [[1, 0]]) :=
  (predict_dispatch [(1, f32Model)] 1 ["hello"] f32Model rfl).2.1 rfl

/-- C6 counterexample: with a loaded Int8 model, predict aborts through the
unimplemented! panic; the outcome is not an error value returned to the
caller, contradicting the claim that an Unimplemented error is surfaced. -/
theorem predict_int8_counterexample :
    predict [(1, int8Model)] 1 ["x"]
      = .aborted "int8 dynamic quantization not yet implemented" ∧
    (predict [(1, int8Model)] 1 ["x"]).isReturnedError = false := by
  constructor <;> rfl

/-- Errors Collection::new could surface.  The alreadyExists constructor is
present so that its absence from every outcome can be stated. -/
inductive CollectionError where
  | alreadyExists
  | ioError
deriving DecidableEq, Repr

/-- The filesystem as Collection::new observes it: whether the collection
directory exists, and whether filesystem calls fail (an IO fault). -/
structure FsState where
  dirExists : Bool
  ioFails : Bool
deriving DecidableEq, Repr

/-- Collection::new: when overwrite is set and the directory exists, remove it
(remove_dir_all, propagating IO failure); then create_dir_all — which succeeds
whether or not the directory already exists — and write config.json.  No
existence check is made on the non-overwrite path. -/
def collectionNew (fs : FsState) (overwrite : Bool) : Except CollectionError FsState :=
  match (if overwrite && fs.dirExists then
      (if fs.ioFails then .error .ioError else .ok { fs with dirExists := false })
    else (.ok fs : Except CollectionError FsState)) with
  | .error e => .error e
  | .ok fs1 =>
    if fs1.ioFails then .error .ioError else .ok { fs1 with dirExists := true }

/-- C4 (amended): Collection::new never fails with AlreadyExists.  With a
healthy filesystem it succeeds even when the directory already exists and
overwrite is false, silently reusing the directory; the only failures are IO
failures. -/
theorem collectionNew_no_alreadyExists (fs : FsState) (overwrite : Bool) :
    (fs.ioFails = false → collectionNew fs overwrite = .ok ⟨true, false⟩) ∧
    (fs.ioFails = true → collectionNew fs overwrite = .error .ioError) ∧
    (∀ e, collectionNew fs overwrite = .error e → e = .ioError) := by
  have hfalse : fs.ioFails = false → collectionNew fs overwrite = .ok ⟨true, false⟩ := by
    intro h
    obtain ⟨d, io⟩ := fs
    simp only at h
    subst h
    cases overwrite <;> cases d <;> rfl
  have htrue : fs.ioFails = true → collectionNew fs overwrite = .error .ioError := by
    intro h
    obtain ⟨d, io⟩ := fs
    simp only at h
    subst h
    cases overwrite <;> cases d <;> rfl
  refine ⟨hfalse, htrue, fun e he => ?_⟩
  cases hio : fs.ioFails with
  | false =>
    rw [hfalse hio] at he
    cases he
  | true =>
    rw [htrue hio] at he
    injection he with h2
    exact h2.symm

/-- Witness for collectionNew_no_alreadyExists: an IO fault surfaces as
IOError, and creation over an existing directory with overwrite succeeds. -/
theorem collectionNew_no_alreadyExists_witness :
    collectionNew ⟨false, true⟩ true = .error .ioError ∧
    collectionNew ⟨false, false⟩ true = .ok ⟨true, false⟩ :=
  ⟨(collectionNew_no_alreadyExists ⟨false, true⟩ true).2.1 rfl,
   (collectionNew_no_alreadyExists ⟨false, false⟩ true).1 rfl⟩

/-- C4 counterexample: the directory exists, the filesystem is healthy and
overwrite is false, yet creation succeeds — it does not fail with
AlreadyExists as the claim requires. -/
theorem collectionNew_existing_dir_counterexample :
    collectionNew ⟨true, false⟩ false = .ok ⟨true, false⟩ := by
  rfl

/-- The ScalarKind chosen from the model's output_dtype in
Collection::embed_column. -/
def scalarKindOfDType : ModelOutputDType → ScalarKind
  | .F32 => .F32
  | .F16 => .F16
  | .Int8 => .I8

/-- A vector index as allocated in memory: its IndexOptions and the capacity
reserved right after allocation. -/
structure ConfiguredIndex where
  options : IndexOptions
  capacity : ℕ
deriving DecidableEq, Repr

/-- The IndexOptions literal built in Collection::embed_column. -/
def embedColumnIndexOptions (vector_dim : ℤ) (dtype : ModelOutputDType) : IndexOptions :=
  { dimensions := vector_dim.toNat
    metric := .Cos
    quantization := scalarKindOfDType dtype
    connectivity := 0
    expansion_add := 0
    expansion_search := 0
    multi := true }

/-- The first block of Collection::embed_column: when the column has no index
yet, allocate one with the options above and reserve capacity 20000, then
register it in the column-to-index map. -/
def embedColumnEnsureIndex (indexes : List (String × ConfiguredIndex))
    (column : String) (vector_dim : ℤ) (dtype : ModelOutputDType) :
    List (String × ConfiguredIndex) :=
  if (indexes.lookup column).isSome then indexes
  else (column, ⟨embedColumnIndexOptions vector_dim dtype, 20000⟩) :: indexes

/-- C7: on the first embed_column invocation for a column, the allocated index
has dimensionality equal to the model's output_dim, metric Cos, quantization
matching the model's output_dtype under F32→F32, F16→F16, I8→I8, multi set,
and a reserved capacity of 20000. -/
theorem embed_column_first_index_options (indexes : List (String × ConfiguredIndex))
    (column : String) (vector_dim : ℤ) (dtype : ModelOutputDType)
    (habsent : indexes.lookup column = none) :
    (embedColumnEnsureIndex indexes column vector_dim dtype).lookup column
      = some ⟨⟨vector_dim.toNat, .Cos, scalarKindOfDType dtype, 0, 0, 0, true⟩, 20000⟩ ∧
    scalarKindOfDType .F32 = .F32 ∧
    scalarKindOfDType .F16 = .F16 ∧
    scalarKindOfDType .Int8 = .I8 := by
  refine ⟨?_, rfl, rfl, rfl⟩
  simp [embedColumnEnsureIndex, habsent, embedColumnIndexOptions, List.lookup]

/-- Witness for embed_column_first_index_options: a 384-dimensional F32 model
on an empty index map. -/
theorem embed_column_first_index_options_witness :
    (embedColumnEnsureIndex [] "user" 384 .F32).lookup "user"
      = some ⟨⟨384, .Cos, .F32, 0, 0, 0, true⟩, 20000⟩ :=
  (embed_column_first_index_options [] "user" 384 .F32 rfl).1

/-- Number of batches in Collection::embed_column:
(count + batch_size − 1) / batch_size. -/
def embedColumnNumBatches (count batch_size : ℕ) : ℕ :=
  (count + batch_size - 1) / batch_size

/-- The offsets of the embedding loop, in loop order: batch * batch_size for
batch = 0, …, num_batches − 1. -/
def embedColumnOffsets (count batch_size : ℕ) : List ℕ :=
  (List.range (embedColumnNumBatches count batch_size)).map (fun b => b * batch_size)

/-- The per-batch key lists gathered by the embedding loop: one
get_column_and_keys call per offset, aborting (None) as the loop would panic
if a batch read fails. -/
def collectKeyBatches (st : RowStore) (batch_size : ℕ) : List ℕ → Option (List (List ℕ))
  | [] => some []
  | off :: offs =>
    (get_column_and_keys st batch_size off).bind (fun p =>
      (collectKeyBatches st batch_size offs).map (fun rest => p.2 :: rest))

/-- All keys inserted into the column's vector index by one embed_column
invocation, in insertion order. -/
def embedColumnInsertedKeys (st : RowStore) (batch_size : ℕ) : Option (List ℕ) :=
  (collectKeyBatches st batch_size (embedColumnOffsets st.rows.length batch_size)).map
    List.flatten

theorem collectKeyBatches_append (st : RowStore) (batch_size : ℕ)
    (l1 l2 : List ℕ) :
    collectKeyBatches st batch_size (l1 ++ l2)
      = (collectKeyBatches st batch_size l1).bind
          (fun b1 => (collectKeyBatches st batch_size l2).map (fun b2 => b1 ++ b2)) := by
  induction l1 with
  | nil =>
    cases h2 : collectKeyBatches st batch_size l2 <;> simp [collectKeyBatches, h2]
  | cons off offs ih =>
    cases h : get_column_and_keys st batch_size off with
    | none => simp [collectKeyBatches, h]
    | some p =>
      cases h1 : collectKeyBatches st batch_size offs with
      | none =>
        rw [h1] at ih
        simp only [Option.none_bind] at ih
        cases h2 : collectKeyBatches st batch_size l2 <;>
          simp [collectKeyBatches, h, h1, ih, h2]
      | some b1 =>
        rw [h1] at ih
        simp only [Option.some_bind] at ih
        cases h2 : collectKeyBatches st batch_size l2 <;> rw [h2] at ih <;>
          simp [collectKeyBatches, h, h1, ih, h2]

theorem get_column_and_keys_of_all_some (st : RowStore) (limit offset : ℕ)
    (hlim : 1 ≤ limit) (htexts : ∀ r ∈ st.rows, r.text.isSome) :
    get_column_and_keys st limit offset
      = some (((st.rows.drop offset).take limit).map (fun r => r.text.getD ""),
              ((st.rows.drop offset).take limit).map (fun r => r.key)) := by
  have hall : ∀ r ∈ (st.rows.drop offset).take limit, r.text.isSome := by
    intro r hr
    exact htexts r (List.mem_of_mem_drop (List.mem_of_mem_take hr))
  have := unwrapTexts_of_all_some _ hall
  simp [get_column_and_keys, Nat.not_lt.mpr hlim, this]

theorem collectKeyBatches_flatten_range (st : RowStore) (batch_size : ℕ)
    (hbs : 1 ≤ batch_size) (htexts : ∀ r ∈ st.rows, r.text.isSome) (k : ℕ) :
    (collectKeyBatches st batch_size ((List.range k).map (fun b => b * batch_size))).map
        List.flatten
      = some ((st.rows.map (fun r => r.key)).take (k * batch_size)) := by
  induction k with
  | zero => simp [collectKeyBatches]
  | succ n ih =>
    obtain ⟨bn, hbn, hfl⟩ : ∃ bn,
        collectKeyBatches st batch_size ((List.range n).map (fun b => b * batch_size))
          = some bn ∧
        bn.flatten = (st.rows.map (fun r => r.key)).take (n * batch_size) := by
      cases hc : collectKeyBatches st batch_size
          ((List.range n).map (fun b => b * batch_size)) with
      | none => rw [hc] at ih; simp at ih
      | some b =>
        rw [hc] at ih
        simp only [Option.map_some', Option.some_inj] at ih
        exact ⟨b, rfl, ih⟩
    have hlast : get_column_and_keys st batch_size (n * batch_size)
        = some (((st.rows.drop (n * batch_size)).take batch_size).map
                  (fun r => r.text.getD ""),
                ((st.rows.drop (n * batch_size)).take batch_size).map
                  (fun r => r.key)) :=
      get_column_and_keys_of_all_some st batch_size (n * batch_size) hbs htexts
    have hone : collectKeyBatches st batch_size [n * batch_size]
        = some [((st.rows.drop (n * batch_size)).take batch_size).map (fun r => r.key)] := by
      simp [collectKeyBatches, hlast]
    rw [List.range_succ, List.map_append, collectKeyBatches_append, hbn]
    simp only [List.map_cons, List.map_nil] at hone ⊢
    rw [hone]
    simp only [Option.map_some', Option.some_bind, Option.some_inj,
      List.flatten_append, List.flatten_cons, List.flatten_nil, List.append_nil]
    rw [hfl]
    have hmaps : ((st.rows.drop (n * batch_size)).take batch_size).map (fun r => r.key)
        = ((st.rows.map (fun r => r.key)).drop (n * batch_size)).take batch_size := by
      rw [List.map_take, List.map_drop]
    rw [hmaps, ← List.take_add]
    congr 1
    ring

/-- C8: within one embed_column invocation over a table whose rows all carry
text, the batch offsets are strictly increasing (offset = batch * batch_size
in loop order), the keys inserted into the vector index are exactly the
table's keys in table order, and — the table's keys being strictly increasing,
as a first import makes them — the inserted key sequence is strictly
ascending. -/
theorem embed_column_batches_ascending (st : RowStore) (batch_size : ℕ)
    (hbs : 1 ≤ batch_size)
    (htexts : ∀ r ∈ st.rows, r.text.isSome)
    (hkeys : List.Pairwise (· < ·) (st.rows.map (fun r => r.key))) :
    List.Pairwise (· < ·) (embedColumnOffsets st.rows.length batch_size) ∧
    embedColumnInsertedKeys st batch_size = some (st.rows.map (fun r => r.key)) ∧
    (∀ ks, embedColumnInsertedKeys st batch_size = some ks →
      List.Pairwise (· < ·) ks) := by
  have hinserted : embedColumnInsertedKeys st batch_size
      = some (st.rows.map (fun r => r.key)) := by
    rw [embedColumnInsertedKeys, embedColumnOffsets,
      collectKeyBatches_flatten_range st batch_size hbs htexts]
    have hlen : st.rows.length
        ≤ embedColumnNumBatches st.rows.length batch_size * batch_size := by
      rw [embedColumnNumBatches]
      have h1 := Nat.div_add_mod (st.rows.length + batch_size - 1) batch_size
      rw [Nat.mul_comm] at h1
      have h2 : (st.rows.length + batch_size - 1) % batch_size < batch_size :=
        Nat.mod_lt _ (by omega)
      omega
    rw [List.take_of_length_le (by simpa using hlen)]
  refine ⟨?_, hinserted, ?_⟩
  · rw [embedColumnOffsets, List.pairwise_map]
    exact (List.pairwise_lt_range _).imp
      (fun hab => (Nat.mul_lt_mul_right hbs).mpr hab)
  · intro ks hks
    rw [hinserted] at hks
    cases hks
    exact hkeys

/-- Witness for embed_column_batches_ascending: three rows embedded with
batch_size 2 insert keys 1, 2, 3 in order. -/
theorem embed_column_batches_ascending_witness :
    embedColumnInsertedKeys ⟨true, [⟨some "a", 1⟩, ⟨some "b", 2⟩, ⟨some "c", 3⟩]⟩ 2
      = some [1, 2, 3] :=
  (embed_column_batches_ascending ⟨true, [⟨some "a", 1⟩, ⟨some "b", 2⟩, ⟨some "c", 3⟩]⟩ 2
    (by norm_num) (by decide) (by decide)).2.1

end Letsearch
